import Mathlib

/-!
Verification of the react-construct pipeline engine.

The development shallowly embeds the continuation-passing pipeline of
`src/src/index.js` (identity-fallback registry), the fail-fast registry
variant found in `src/unnamed/part_001`, and the `dumbFetch` resolver of
`src/src/resolvers/dumbFetch.js`.  JavaScript runtime values are modelled
by the inductive `Value`; a thrown exception is modelled by the `Except`
monad, with the error string mirroring the message the engine would throw.
-/

namespace ReactConstruct

/-- JavaScript values threaded through the pipeline: the engine itself only
ever manufactures `null` (the initial seed); everything else is produced by
resolver functions and step properties. -/
inductive Value : Type where
  | null : Value
  | bool (b : Bool) : Value
  | num (n : Int) : Value
  | str (s : String) : Value
  | list (vs : List Value) : Value

/-- A definition entry (flow type `Definition` in `src/src/index.js`): a
required `type` discriminator, an open-ended property bag, and an optional
`dependencies` list `{name, definition}` (absent list modelled as `[]`). -/
inductive Step : Type where
  | mk (type : String) (props : List (String × Value)) (dependencies : List (String × List Step)) : Step

def Step.type : Step → String
  | .mk t _ _ => t

def Step.props : Step → List (String × Value)
  | .mk _ p _ => p

def Step.dependencies : Step → List (String × List Step)
  | .mk _ _ d => d

/-- Result of one pipeline invocation: a value, or a thrown exception. -/
abbrev Res := Except String Value

/-- A resolver function `(previous, current, next) => Node`. -/
abbrev Handler := Value → Step → (Value → Res) → Res

/-- One entry of the `resolvers` prop: `{ type, resolverFunc }`.  The
`resolverFunc` field is optional so that an entry whose function is
`undefined` (checked by the fail-fast variant) is representable. -/
structure ResolverEntry : Type where
  type : String
  resolverFunc : Option Handler

/-- `const identityResolver = (previous, current, next) => next(previous)` -/
def identityResolver : Handler := fun previous _ next => next previous

/-- Invoking an entry whose `resolverFunc` is `undefined` throws a
`TypeError` in JavaScript; the identity-fallback `getResolver` returns the
undefined field unchecked, so the throw happens at invocation time. -/
def brokenResolver : Handler := fun _ _ _ =>
  .error "TypeError: resolver.resolverFunc is not a function"

/-- Total registry lookup of `src/src/index.js` (resolvers list present):
`(resolvers.find(r => r.type === type) || \x7b resolverFunc: identityResolver \x7d).resolverFunc`. -/
def getResolver! (resolvers : List ResolverEntry) (current : Step) : Handler :=
  match resolvers.find? (fun r => r.type == current.type) with
  | some e =>
    match e.resolverFunc with
    | some f => f
    | none => brokenResolver
  | none => identityResolver

/-- Registry lookup with the `resolvers` prop possibly `undefined`: the
`resolvers.find` call inside `getResolver` throws a `TypeError` when the
list is missing, and that happens only when the enclosing closure runs. -/
def getResolver (resolvers : Option (List ResolverEntry)) (current : Step) : Except String Handler :=
  match resolvers with
  | none => .error "TypeError: Cannot read property find of undefined"
  | some rs => .ok (getResolver! rs current)

/-- `render || identity` applied as the terminal continuation. -/
def terminalOf : Option (Value → Value) → Value → Res
  | none => fun v => .ok v
  | some r => fun v => .ok (r v)

/-- The chain built by
`definition.reduceRight((next, current) => previous => getResolver(current)(previous, current, next), render || identity)`
in `src/src/index.js`.  `reduceRight` folds from the last step to the first,
so it is `List.foldr`; the registry lookup sits inside the
`previous => ...` closure and therefore runs only when that closure is
invoked. -/
def constructChain (resolvers : Option (List ResolverEntry)) (definition : List Step)
    (terminal : Value → Res) : Value → Res :=
  definition.foldr
    (fun current next previous =>
      match getResolver resolvers current with
      | .error e => .error e
      | .ok f => f previous current next)
    terminal

/-- The `Construct` props object.  Each field is optional so that an
invocation such as `Construct(\x7b\x7d)` (fields not provided at all) is
representable. -/
structure Config : Type where
  definition : Option (List Step)
  resolvers : Option (List ResolverEntry)
  render : Option (Value → Value)

/-- `Construct` of `src/src/index.js`: builds the chain and invokes it with
the seed `null`.  A missing `definition` makes `definition.reduceRight`
throw a `TypeError` immediately. -/
def Construct (cfg : Config) : Res :=
  match cfg.definition with
  | none => .error "TypeError: Cannot read property reduceRight of undefined"
  | some defn => constructChain cfg.resolvers defn (terminalOf cfg.render) .null

/-- Registry lookup of the fail-fast variant (`src/unnamed/part_001`):
throws `Can't fine resolver function for type: ...` when no entry matches
or the matching entry has no `resolverFunc`. -/
def getResolverFF (current : Step) (resolvers : List ResolverEntry) : Except String Handler :=
  match resolvers.find? (fun r => r.type == current.type) with
  | some e =>
    match e.resolverFunc with
    | some f => .ok f
    | none => .error ("Can't fine resolver function for type: " ++ current.type)
  | none => .error ("Can't fine resolver function for type: " ++ current.type)

/-- `reducer` of `src/unnamed/part_001`:
`(next, current) => previous => getResolver(current, resolvers)(previous, current, next)`.
The lookup, and hence the potential throw, is deferred until the closure
receives a `previous` value. -/
def reducer (resolvers : List ResolverEntry) (next : Value → Res) (current : Step) : Value → Res :=
  fun previous =>
    match getResolverFF current resolvers with
    | .error e => .error e
    | .ok f => f previous current next

/-- The chain of the fail-fast variant. -/
def constructChainFF (resolvers : List ResolverEntry) (definition : List Step)
    (terminal : Value → Res) : Value → Res :=
  definition.foldr (fun current next => reducer resolvers next current) terminal

/-- `Construct` of `src/unnamed/part_001`:
`definition.reduceRight(reducer(resolvers), render || identity)(null)`. -/
def ConstructFF (definition : List Step) (resolvers : List ResolverEntry)
    (render : Option (Value → Value)) : Res :=
  constructChainFF resolvers definition (terminalOf render) .null

/-- `dumbFetch` of `src/src/resolvers/dumbFetch.js`: synchronously returns
the promise `fetch(current.url).then(...).then(next)` without ever handing
control to `next` within the invocation, so the chain's downstream results
are discarded from the overall result.  The opaque promise object is
modelled as a string value. -/
def dumbFetch : Handler := fun _ _ _ => .ok (.str "[object Promise]")

/-- Write property `name` on a property bag, overwriting an existing entry
or appending a fresh one. -/
def setProp : List (String × Value) → String → Value → List (String × Value)
  | [], name, v => [(name, v)]
  | (m, w) :: rest, name, v =>
    if m == name then (name, v) :: rest else (m, w) :: setProp rest name v

/-- Read property `name` from a property bag (first occurrence). -/
def getProp (props : List (String × Value)) (name : String) : Option Value :=
  (props.find? (fun p => p.1 == name)).map Prod.snd

/-- Derived step `current'`: `current` with each resolved dependency result
written under its dependency's `name` (spec §4.4: "an additional (or
overwritten) property"); the original step is not mutated. -/
def mergeStep (s : Step) (resolved : List (String × Value)) : Step :=
  .mk s.type (resolved.foldl (fun acc p => setProp acc p.1 p.2) s.props) s.dependencies

theorem sizeOf_dependencies_lt (s : Step) : sizeOf s.dependencies < sizeOf s := by
  cases s with
  | mk t p d => simp [Step.dependencies]

mutual

/-- Modelled from the spec: the Dependency Resolver enhancer of §4.4 is not
present under `src/` (only the `dependencies` field of the flow type
`Definition` declares it), so this pipeline follows the spec's words: each
step's dependencies are first resolved depth-first by recursively running
the pipeline over their `subSteps` with a result-capturing terminal
continuation and the seed `null`; the resolved results are merged into the
step, and only then is the step's handler (looked up in the
identity-fallback registry of `src/src/index.js`) invoked with the merged
`current`. -/
def runSteps (resolvers : List ResolverEntry) (steps : List Step) (terminal : Value → Res)
    (previous : Value) : Res :=
  match steps with
  | [] => terminal previous
  | .mk t props deps :: rest =>
    match resolveStepDeps resolvers deps with
    | .error e => .error e
    | .ok resolved =>
      getResolver! resolvers (mergeStep (.mk t props deps) resolved) previous
        (mergeStep (.mk t props deps) resolved)
        (fun v => runSteps resolvers rest terminal v)
termination_by sizeOf steps

/-- Modelled from the spec: resolve each dependency `\x7bname, subSteps\x7d`
in order by running the pipeline over its `subSteps`; a sub-pipeline that
throws aborts resolution, and otherwise each dependency contributes the
pair `(name, result)`. -/
def resolveStepDeps (resolvers : List ResolverEntry) (deps : List (String × List Step)) :
    Except String (List (String × Value)) :=
  match deps with
  | [] => .ok []
  | (name, subSteps) :: more =>
    match runSteps resolvers subSteps (fun v => .ok v) .null with
    | .error e => .error e
    | .ok r =>
      match resolveStepDeps resolvers more with
      | .error e => .error e
      | .ok others => .ok ((name, r) :: others)
termination_by sizeOf deps

end

/-! Concrete resolvers and definitions used to instantiate the theorems,
taken from the repository's test file (`src/unnamed/part_000`) and README
scenarios. -/

/-- Successor on numeric values (the `increment` resolver's arithmetic). -/
def vinc : Value → Value
  | .num k => .num (k + 1)
  | _ => .null

/-- The `start` resolver of the test suite: `(p, c, next) => next(10)`. -/
def hstart : Handler := fun _ _ next => next (.num 10)

/-- The `increment` resolver of the test suite:
`(previous, c, next) => next(previous + 1)`. -/
def hinc : Handler := fun previous _ next => next (vinc previous)

/-- A resolver that passes the constant `k` to its continuation. -/
def hnum (k : Int) : Handler := fun _ _ next => next (.num k)

/-- A resolver that never calls `next` and returns a loading placeholder. -/
def hstop : Handler := fun _ _ _ => .ok (.str "loading")

/-- A resolver that passes the merged dependency property `d` onward. -/
def huseD : Handler := fun _ current next =>
  next (match getProp current.props "d" with | some v => v | none => .null)

/-- Registry of the sequencing test: `start` then `increment`. -/
def testRs : List ResolverEntry := [⟨"start", some hstart⟩, ⟨"increment", some hinc⟩]

/-- Definition of the sequencing test: one `start`, three `increment`s. -/
def testDef : List Step :=
  [.mk "start" [] [], .mk "increment" [] [], .mk "increment" [] [], .mk "increment" [] []]

/-- The per-step transform realised by `testRs` on `testDef`. -/
def testF (s : Step) (p : Value) : Value :=
  if s.type == "start" then .num 10 else vinc p

/-- Registry with a duplicated `type`: the first entry passes `1`, the
second passes `2`. -/
def dupRs : List ResolverEntry := [⟨"a", some (hnum 1)⟩, ⟨"a", some (hnum 2)⟩]

/-- Registry for the dependency scenario. -/
def depRs : List ResolverEntry := [⟨"const42", some (hnum 42)⟩, ⟨"useD", some huseD⟩]

/-- A step whose single dependency itself contains a nested dependency:
the innermost sub-pipeline passes `42`, each `useD` level forwards the
merged `d` property. -/
def depStep : Step :=
  .mk "useD" [] [("d", [.mk "useD" [] [("d", [.mk "const42" [] []])]])]

/-- Registry for the deferred-lookup scenario: only `stop` is known. -/
def stopRs : List ResolverEntry := [⟨"stop", some hstop⟩]

/-! Helper lemmas about the chains. -/

theorem constructChain_cons (rs : List ResolverEntry) (s : Step) (rest : List Step)
    (terminal : Value → Res) (previous : Value) :
    constructChain (some rs) (s :: rest) terminal previous
      = getResolver! rs s previous s (constructChain (some rs) rest terminal) := rfl

theorem constructChainFF_cons (rs : List ResolverEntry) (s : Step) (rest : List Step)
    (terminal : Value → Res) (previous : Value) :
    constructChainFF rs (s :: rest) terminal previous
      = reducer rs (constructChainFF rs rest terminal) s previous := rfl

/-- For a prefix of steps whose resolvers each hand `f s previous` to their
continuation and return its result, running the chain from the seed walks
the prefix in order, threading the folded value into the suffix's chain. -/
theorem constructChain_append (rs : List ResolverEntry) (f : Step → Value → Value)
    (pre suf : List Step) (terminal : Value → Res) (v : Value)
    (H : ∀ s ∈ pre, ∀ (p : Value) (n : Value → Res), getResolver! rs s p s n = n (f s p)) :
    constructChain (some rs) (pre ++ suf) terminal v
      = constructChain (some rs) suf terminal (pre.foldl (fun a s => f s a) v) := by
  induction pre generalizing v with
  | nil => rfl
  | cons s pre ih =>
    rw [List.cons_append, constructChain_cons, H s (by simp)]
    exact ih _ (fun s hs p n => H s (by simp [hs]) p n)

/-! Claim theorems. -/

/-- C8: for an empty `definition` and empty `resolvers`, `Construct` does
not throw and returns the terminal continuation applied to the initial seed
`null`; with `render` absent the terminal continuation is the identity, so
the result is `null`. -/
theorem construct_empty_returns_seed :
    Construct ⟨some [], some [], none⟩ = .ok .null
    ∧ ∀ render : Option (Value → Value),
        Construct ⟨some [], some [], render⟩ = terminalOf render .null := by
  exact ⟨rfl, fun render => rfl⟩

/-- C9: for a non-empty definition the value `Construct` returns is exactly
the return value of the first step's handler (applied to the seed, the first
step and the downstream chain); consequently a handler that returns
something other than its continuation's result — such as `dumbFetch`, which
always returns a promise — discards every downstream handler's and the
terminal continuation's return value from the overall result. -/
theorem construct_returns_first_handler_result :
    (∀ (s : Step) (rest : List Step) (rs : List ResolverEntry) (render : Option (Value → Value)),
      Construct ⟨some (s :: rest), some rs, render⟩
        = getResolver! rs s .null s (constructChain (some rs) rest (terminalOf render)))
    ∧ ∀ (rest : List Step) (more : List ResolverEntry) (render : Option (Value → Value)),
        Construct ⟨some (.mk "fetch" [] [] :: rest), some (⟨"fetch", some dumbFetch⟩ :: more), render⟩
          = .ok (.str "[object Promise]") := by
  refine ⟨fun s rest rs render => rfl, fun rest more render => rfl⟩

/-- C7: for a definition holding a single step with no dependencies and a
single matching resolver, `Construct` invokes that handler exactly once —
the whole invocation is one application of the handler — and the `current`
argument it receives is the very step object from the definition, passed
through unchanged with no copy or merge. -/
theorem construct_single_step_passes_step
    (s : Step) (h : Handler) (render : Option (Value → Value))
    (_hdeps : s.dependencies = []) :
    Construct ⟨some [s], some [⟨s.type, some h⟩], render⟩ = h .null s (terminalOf render) := by
  show constructChain (some [⟨s.type, some h⟩]) [s] (terminalOf render) .null = _
  rw [constructChain_cons]
  simp [getResolver!, constructChain]

/-- Witness for C7: a concrete single-step invocation reduces to the single
handler application, which passes `5` to the terminal continuation. -/
theorem construct_single_step_passes_step_witness :
    Construct ⟨some [.mk "solo" [] []], some [⟨"solo", some (hnum 5)⟩], none⟩ = .ok (.num 5) :=
  (construct_single_step_passes_step (.mk "solo" [] []) (hnum 5) none rfl).trans rfl

/-- C5: in the fail-fast variant, once execution reaches a step whose
`type` matches no registry entry, the invocation terminates with the error
`Can't fine resolver function for type: ...` naming the offending type —
both for the chain continuation at that step and for a whole `Construct`
invocation that starts there; being a returned `Except.error` of pure
functions, no shared state is touched. -/
theorem constructFF_unresolved_kind_errors
    (rs : List ResolverEntry) (s : Step)
    (h : rs.find? (fun r => r.type == s.type) = none) :
    (∀ (rest : List Step) (terminal : Value → Res) (previous : Value),
      constructChainFF rs (s :: rest) terminal previous
        = .error ("Can't fine resolver function for type: " ++ s.type))
    ∧ ∀ (rest : List Step) (render : Option (Value → Value)),
        ConstructFF (s :: rest) rs render
          = .error ("Can't fine resolver function for type: " ++ s.type) := by
  constructor
  · intro rest terminal previous
    rw [constructChainFF_cons]
    simp [reducer, getResolverFF, h]
  · intro rest render
    show constructChainFF rs (s :: rest) (terminalOf render) .null = _
    rw [constructChainFF_cons]
    simp [reducer, getResolverFF, h]

/-- Witness for C5: reaching a `mystery` step with a registry that only
knows `start` throws the diagnostic naming `mystery`. -/
theorem constructFF_unresolved_kind_errors_witness :
    ConstructFF [.mk "mystery" [] []] [⟨"start", some hstart⟩] none
      = .error "Can't fine resolver function for type: mystery" :=
  ((constructFF_unresolved_kind_errors [⟨"start", some hstart⟩] (.mk "mystery" [] []) rfl).2
    [] none).trans rfl

/-- C10: the fail-fast registry is consulted for a step only when that
step's continuation is actually invoked; hence if the first handler ignores
its continuation, the invocation completes with that handler's result and a
downstream step with an unknown `type` raises no error, whatever the rest
of the definition is. -/
theorem constructFF_deferred_lookup
    (rs : List ResolverEntry) (s : Step) (f : Handler)
    (hl : getResolverFF s rs = .ok f)
    (hig : ∀ (p : Value) (c : Step) (k k' : Value → Res), f p c k = f p c k') :
    ∀ (rest : List Step) (render : Option (Value → Value)),
      ConstructFF (s :: rest) rs render = f .null s (fun v => .ok v) := by
  intro rest render
  show constructChainFF rs (s :: rest) (terminalOf render) .null = _
  rw [constructChainFF_cons]
  simp only [reducer, hl]
  exact hig _ _ _ _

/-- Witness for C10: `stop` never calls `next`, so the unknown `mystery`
step after it is never looked up and the run completes with `loading`. -/
theorem constructFF_deferred_lookup_witness :
    ConstructFF [.mk "stop" [] [], .mk "mystery" [] []] stopRs none = .ok (.str "loading") :=
  (constructFF_deferred_lookup stopRs (.mk "stop" [] []) hstop rfl
    (fun _ _ _ _ => rfl) [.mk "mystery" [] []] none).trans rfl

/-- C1: when every step's resolver hands a value to its continuation
exactly once and returns its result (the value being `f s previous` for the
step's transform `f`), execution walks the definition in order: splitting
the definition anywhere, the run equals the suffix's chain seeded with the
fold of the prefix's transforms — so the first handler receives `null`,
each later handler receives exactly what its predecessor passed to `next`
(including the last one) — and the overall result is the terminal
continuation (`render`, or identity if absent) applied to the last `next`
value, for any length. -/
theorem construct_threads_values
    (rs : List ResolverEntry) (defn : List Step) (render : Option (Value → Value))
    (f : Step → Value → Value)
    (H : ∀ s ∈ defn, ∀ (p : Value) (n : Value → Res), getResolver! rs s p s n = n (f s p)) :
    (∀ pre suf : List Step, defn = pre ++ suf →
      Construct ⟨some defn, some rs, render⟩
        = constructChain (some rs) suf (terminalOf render) (pre.foldl (fun a s => f s a) .null))
    ∧ Construct ⟨some defn, some rs, render⟩
        = terminalOf render (defn.foldl (fun a s => f s a) .null) := by
  have main : ∀ pre suf : List Step, defn = pre ++ suf →
      Construct ⟨some defn, some rs, render⟩
        = constructChain (some rs) suf (terminalOf render) (pre.foldl (fun a s => f s a) .null) := by
    intro pre suf hsplit
    show constructChain (some rs) defn (terminalOf render) .null = _
    rw [hsplit]
    exact constructChain_append rs f pre suf (terminalOf render) .null
      (fun s hs p n => H s (by simp [hsplit, hs]) p n)
  refine ⟨main, ?_⟩
  have := main defn [] (by simp)
  simpa [constructChain] using this

/-- Witness for C1: the test scenario `start; increment; increment;
increment` threads `10, 11, 12` and renders `13`. -/
theorem construct_threads_values_witness :
    Construct ⟨some testDef, some testRs, none⟩ = .ok (.num 13) := by
  have H : ∀ s ∈ testDef, ∀ (p : Value) (n : Value → Res),
      getResolver! testRs s p s n = n (testF s p) := by
    intro s hs p n
    simp only [testDef, List.mem_cons, List.mem_singleton, List.not_mem_nil, or_false] at hs
    rcases hs with h | h | h | h <;> subst h <;> rfl
  exact ((construct_threads_values testRs testDef none testF H).2).trans rfl

/-- C3 counterexample: invoking `Construct` with `resolvers` not provided
but an empty `definition` does not fail at all — it returns `Except.ok null`
normally (so no error of any kind is surfaced), because the registry is
never consulted. -/
theorem construct_missing_resolvers_no_error :
    Construct ⟨some [], none, none⟩ = .ok .null := rfl

/-- C3 amended: a missing `definition` always throws a `TypeError`
immediately; a missing `resolvers` list throws a `TypeError` before any
handler runs only when the definition is non-empty — with an empty
definition the invocation returns the terminal continuation of the seed
with no error. -/
theorem construct_missing_fields_amended :
    (∀ cfg : Config, cfg.definition = none →
      Construct cfg = .error "TypeError: Cannot read property reduceRight of undefined")
    ∧ (∀ (s : Step) (rest : List Step) (render : Option (Value → Value)),
        Construct ⟨some (s :: rest), none, render⟩
          = .error "TypeError: Cannot read property find of undefined")
    ∧ ∀ render : Option (Value → Value),
        Construct ⟨some [], none, render⟩ = terminalOf render .null := by
  refine ⟨fun cfg h => ?_, fun s rest render => rfl, fun render => rfl⟩
  simp [Construct, h]

/-- Witness for C3's amended claim: the concrete invocation
`Construct(\x7b\x7d)` throws the `TypeError`. -/
theorem construct_missing_fields_amended_witness :
    Construct ⟨none, none, none⟩
      = .error "TypeError: Cannot read property reduceRight of undefined" :=
  construct_missing_fields_amended.1 ⟨none, none, none⟩ rfl

/-- C6: when several registry entries share a `type`, `Construct` uses the
entry occurring earliest in the `resolvers` list for every step of that
type: with no earlier entry of the step's type, the first matching entry's
`resolverFunc` is the handler the chain invokes. -/
theorem construct_first_match_wins
    (pre post : List ResolverEntry) (e : ResolverEntry) (f : Handler)
    (s : Step) (rest : List Step) (render : Option (Value → Value))
    (hpre : ∀ e' ∈ pre, e'.type ≠ s.type) (he : e.type = s.type)
    (hf : e.resolverFunc = some f) :
    Construct ⟨some (s :: rest), some (pre ++ e :: post), render⟩
      = f .null s (constructChain (some (pre ++ e :: post)) rest (terminalOf render)) := by
  show constructChain (some (pre ++ e :: post)) (s :: rest) (terminalOf render) .null = _
  rw [constructChain_cons]
  have hfind : (pre ++ e :: post).find? (fun r => r.type == s.type) = some e := by
    rw [List.find?_append]
    have hnone : pre.find? (fun r => r.type == s.type) = none := by
      rw [List.find?_eq_none]
      intro x hx
      simpa using hpre x hx
    simp [hnone, List.find?_cons, he]
  simp [getResolver!, hfind, hf]

/-- Witness for C6: with two entries of type `a`, the first (passing `1`)
is used, not the second (passing `2`). -/
theorem construct_first_match_wins_witness :
    Construct ⟨some [.mk "a" [] []], some dupRs, none⟩ = .ok (.num 1) :=
  (construct_first_match_wins [] [⟨"a", some (hnum 2)⟩] ⟨"a", some (hnum 1)⟩ (hnum 1)
    (.mk "a" [] []) [] none (by simp) rfl rfl).trans rfl

/-- C4: off the unknown-kind case the two registry policies agree — for a
definition in which every step's `type` is matched by a registry entry that
carries a `resolverFunc`, the identity-fallback `Construct` of
`src/src/index.js` and the fail-fast `Construct` of `src/unnamed/part_001`
produce the same result from the same resolvers and render. -/
theorem construct_variants_agree
    (rs : List ResolverEntry) (defn : List Step) (render : Option (Value → Value))
    (H : ∀ s ∈ defn, ∃ e : ResolverEntry, rs.find? (fun r => r.type == s.type) = some e
      ∧ ∃ f : Handler, e.resolverFunc = some f) :
    Construct ⟨some defn, some rs, render⟩ = ConstructFF defn rs render := by
  show constructChain (some rs) defn (terminalOf render) .null
    = constructChainFF rs defn (terminalOf render) .null
  have chains : ∀ defn' : List Step, (∀ s ∈ defn', ∃ e : ResolverEntry,
      rs.find? (fun r => r.type == s.type) = some e ∧ ∃ f : Handler, e.resolverFunc = some f) →
      ∀ terminal : Value → Res,
        constructChain (some rs) defn' terminal = constructChainFF rs defn' terminal := by
    intro defn' Hd terminal
    induction defn' with
    | nil => rfl
    | cons s rest ih =>
      funext previous
      obtain ⟨e, hfind, g, hg⟩ := Hd s (by simp)
      rw [constructChain_cons, constructChainFF_cons]
      rw [ih (fun s' hs' => Hd s' (by simp [hs']))]
      simp [reducer, getResolver!, getResolverFF, hfind, hg]
  rw [chains defn H (terminalOf render)]

/-- Witness for C4: on the sequencing test both variants compute `13`. -/
theorem construct_variants_agree_witness :
    Construct ⟨some testDef, some testRs, none⟩ = ConstructFF testDef testRs none := by
  refine construct_variants_agree testRs testDef none ?_
  intro s hs
  simp only [testDef, List.mem_cons, List.mem_singleton, List.not_mem_nil, or_false] at hs
  rcases hs with h | h | h | h <;> subst h
  · exact ⟨⟨"start", some hstart⟩, rfl, hstart, rfl⟩
  all_goals exact ⟨⟨"increment", some hinc⟩, rfl, hinc, rfl⟩

/-! Lemmas about property bags and dependency resolution, leading to C2. -/

theorem getProp_cons (m : String) (w : Value) (l : List (String × Value)) (n : String) :
    getProp ((m, w) :: l) n = if m == n then some w else getProp l n := by
  by_cases h : m == n <;> simp [getProp, List.find?_cons, h]

theorem getProp_setProp_self (props : List (String × Value)) (n : String) (v : Value) :
    getProp (setProp props n v) n = some v := by
  induction props with
  | nil => simp [setProp, getProp_cons, getProp]
  | cons p rest ih =>
    obtain ⟨m, w⟩ := p
    by_cases h : m == n
    · simp [setProp, h, getProp_cons]
    · simp [setProp, h, getProp_cons, ih]

theorem getProp_setProp_other (props : List (String × Value)) (m n : String) (v : Value)
    (h : m ≠ n) :
    getProp (setProp props m v) n = getProp props n := by
  induction props with
  | nil => simp [setProp, getProp_cons, getProp, h]
  | cons p rest ih =>
    obtain ⟨m', w⟩ := p
    by_cases h' : m' == m
    · have : m' = m := by simpa using h'
      subst this
      simp [setProp, getProp_cons, h]
    · simp [setProp, h', getProp_cons, ih]

theorem getProp_foldl_not_mem (ps : List (String × Value)) (props : List (String × Value))
    (n : String) (h : n ∉ ps.map Prod.fst) :
    getProp (ps.foldl (fun a p => setProp a p.1 p.2) props) n = getProp props n := by
  induction ps generalizing props with
  | nil => rfl
  | cons p rest ih =>
    simp only [List.map_cons, List.mem_cons, not_or] at h
    rw [List.foldl_cons, ih _ h.2, getProp_setProp_other]
    exact fun he => h.1 he.symm

theorem getProp_foldl_of_mem (ps : List (String × Value)) (props : List (String × Value))
    (n : String) (r : Value) (hnd : (ps.map Prod.fst).Nodup) (hmem : (n, r) ∈ ps) :
    getProp (ps.foldl (fun a p => setProp a p.1 p.2) props) n = some r := by
  induction ps generalizing props with
  | nil => cases hmem
  | cons p rest ih =>
    rw [List.map_cons] at hnd
    obtain ⟨h1, h2⟩ := List.nodup_cons.mp hnd
    rw [List.foldl_cons]
    rcases List.mem_cons.mp hmem with heq | hmem'
    · subst heq
      rw [getProp_foldl_not_mem rest _ n h1, getProp_setProp_self]
    · exact ih _ h2 hmem'

/-- A successful dependency resolution produces the dependencies' names in
order. -/
theorem resolveStepDeps_names (rs : List ResolverEntry) (deps : List (String × List Step))
    (ps : List (String × Value)) (h : resolveStepDeps rs deps = .ok ps) :
    ps.map Prod.fst = deps.map Prod.fst := by
  induction deps generalizing ps with
  | nil =>
    rw [resolveStepDeps] at h
    cases h
    rfl
  | cons d more ih =>
    obtain ⟨name, subSteps⟩ := d
    rw [resolveStepDeps] at h
    cases hrun : runSteps rs subSteps (fun v => .ok v) .null with
    | error e => simp [hrun] at h
    | ok r =>
      cases hmore : resolveStepDeps rs more with
      | error e => simp [hrun, hmore] at h
      | ok others =>
        simp only [hrun, hmore] at h
        cases h
        simp [ih others hmore]

/-- Every dependency of a successfully resolved list contributed the pair
`(name, result of its sub-pipeline)`. -/
theorem resolveStepDeps_mem (rs : List ResolverEntry) (deps : List (String × List Step))
    (ps : List (String × Value)) (h : resolveStepDeps rs deps = .ok ps) :
    ∀ d ∈ deps, ∃ r : Value,
      runSteps rs d.2 (fun v => .ok v) .null = .ok r ∧ (d.1, r) ∈ ps := by
  induction deps generalizing ps with
  | nil => intro d hd; cases hd
  | cons d more ih =>
    obtain ⟨name, subSteps⟩ := d
    rw [resolveStepDeps] at h
    cases hrun : runSteps rs subSteps (fun v => .ok v) .null with
    | error e => simp [hrun] at h
    | ok r =>
      cases hmore : resolveStepDeps rs more with
      | error e => simp [hrun, hmore] at h
      | ok others =>
        simp only [hrun, hmore] at h
        cases h
        intro d hd
        rcases List.mem_cons.mp hd with heq | hmem
        · subst heq
          exact ⟨r, hrun, by simp⟩
        · obtain ⟨r', hr', hmem'⟩ := ih others hmore d hmem
          exact ⟨r', hr', by simp [hmem']⟩

/-- C2 (dependency resolution, modelled from the spec): a step with
dependencies is not invoked until every dependency's sub-pipeline —
recursively, nested dependencies included — has produced a result: if any
sub-pipeline throws, the run aborts with that error and the handler never
runs; once all dependencies resolve, the handler is invoked with the merged
`current`, and (for distinct dependency names) the merged step carries, for
each dependency `(name, subSteps)`, the property `name` equal to that
sub-pipeline's resolved result. -/
theorem runSteps_resolves_dependencies_first
    (rs : List ResolverEntry) (t : String) (props : List (String × Value))
    (deps : List (String × List Step)) (rest : List Step)
    (terminal : Value → Res) (previous : Value) :
    (∀ e : String, resolveStepDeps rs deps = .error e →
      runSteps rs (.mk t props deps :: rest) terminal previous = .error e)
    ∧ ∀ ps : List (String × Value), resolveStepDeps rs deps = .ok ps →
        (runSteps rs (.mk t props deps :: rest) terminal previous
          = getResolver! rs (mergeStep (.mk t props deps) ps) previous
              (mergeStep (.mk t props deps) ps) (fun v => runSteps rs rest terminal v))
        ∧ ((deps.map Prod.fst).Nodup →
            ∀ (name : String) (subSteps : List Step), (name, subSteps) ∈ deps →
              ∃ r : Value, runSteps rs subSteps (fun v => .ok v) .null = .ok r
                ∧ getProp (mergeStep (.mk t props deps) ps).props name = some r) := by
  constructor
  · intro e he
    rw [runSteps, he]
  · intro ps hps
    constructor
    · rw [runSteps, hps]
    · intro hnd name subSteps hmem
      obtain ⟨r, hr, hmem'⟩ := resolveStepDeps_mem rs deps ps hps (name, subSteps) hmem
      refine ⟨r, hr, ?_⟩
      show getProp (ps.foldl (fun a p => setProp a p.1 p.2) props) name = some r
      refine getProp_foldl_of_mem ps props name r ?_ hmem'
      rw [resolveStepDeps_names rs deps ps hps]
      exact hnd

/-- Witness for C2: the nested-dependency scenario — `useD` depends on a
`useD` sub-pipeline that itself depends on a `const42` sub-pipeline — fully
resolves depth-first and yields `42`. -/
theorem runSteps_resolves_dependencies_first_witness :
    runSteps depRs [depStep] (fun v => .ok v) .null = .ok (.num 42) := by
  have hps : resolveStepDeps depRs depStep.dependencies = .ok [("d", .num 42)] := by
    simp [depStep, Step.dependencies, resolveStepDeps, runSteps, depRs, getResolver!,
      huseD, mergeStep, setProp, getProp, hnum, Step.type, Step.props]
  have h := ((runSteps_resolves_dependencies_first depRs "useD" [] depStep.dependencies []
    (fun v => .ok v) .null).2 [("d", .num 42)] hps).1
  refine h.trans ?_
  simp [getResolver!, mergeStep, depRs, huseD, getProp_cons, runSteps, Step.type, Step.props,
    depStep, Step.dependencies, setProp]

end ReactConstruct
